import Mathlib

/-!
Verification of the goRPC call-multiplexing engine (client pending-call
table, receive loop, send path, server request pipeline, handshake and
option parsing), shallowly embedded from the Go sources.

Conventions of the embedding:
* Go maps keyed by sequence number become association lists with
  lookup-by-key and delete-all-occurrences-of-key (a Go map holds at most
  one entry per key, so this is the exact map semantics).
* Go errors become `Option String` / `Except String` values; a `nil`
  error is `none` / `.ok`.
* Channels carry only their capacity where the code branches on it; the
  one-shot completion signal `call.done()` is recorded in a ghost log
  `doneLog` so that exactly-once delivery is a statement about the log.
* The mutex discipline of the source (`sending` held for a whole send
  and for `terminateCalls`; `mu` held for each table operation) is
  reflected in the grain of the atomic events of the trace semantics:
  a send is split into its register step and its write step, because the
  receive loop may run between them, but no terminate step may occur
  between them (the `sending` lock excludes that interleaving).
-/

/-- Wire header of one message: service/method name, sequence number and
error text, from codec.Header in the Go source (identical in the client
and server codec packages). -/
structure Header where
  serviceMethod : String
  seq : Nat
  error : String
  deriving DecidableEq, Repr

/-- The protocol magic constant, 0x3bef5c in both server packages. -/
def MagicNumber : Int := 0x3bef5c

/-- codec.Type tag of the gob codec. -/
def GobType : String := "application/gob"

/-- codec.Type tag of the json codec (declared but never registered in
NewCodecFuncMap). -/
def JsonType : String := "application/json"

/-- The Option struct sent once per connection before any header/body
pair: the magic number and the codec type tag. -/
structure OptionMsg where
  MagicNumber : Int
  CodecType : String
  deriving DecidableEq, Repr

/-- DefaultOption from the source: the magic constant and the gob codec. -/
def DefaultOption : OptionMsg :=
  { MagicNumber := MagicNumber, CodecType := GobType }

/-- NewCodecFuncMap after the codec package init: only the gob
constructor is registered (the constructor itself is irrelevant to the
claims and elided to Unit). -/
def NewCodecFuncMap (t : String) : Option Unit :=
  if t = GobType then some () else none

namespace GoRPC

/-- One in-flight invocation, from the Call struct of the client: the
sequence number, the method name and the error slot.  The argument and
reply payloads are irrelevant to the bookkeeping claims and are not
carried. -/
structure RpcCall where
  seq : Nat
  serviceMethod : String
  err : Option String
  deriving DecidableEq, Repr

/-- The message of ErrShutdown in the client source. -/
def errShutdownMsg : String := "connecting is shut down"

/-- Client state, from the Client struct: the next sequence number, the
pending table (map seq -> Call), the closing and shutdown flags.  Ghost
instrumentation: `registered` records every sequence number that
registerCall accepted, `doneLog` records every call value passed through
`call.done()`, and `writeAttempts` counts invocations of `cc.Write` on
the send path. -/
structure ClientState where
  seq : Nat
  pending : List (Nat × RpcCall)
  closing : Bool
  shutdown : Bool
  inflight : Option Nat
  registered : List Nat
  doneLog : List RpcCall
  writeAttempts : Nat
  deriving DecidableEq, Repr

/-- Initial client state from newClientCodec: seq starts at 1, empty
pending table, both flags false. -/
def initClient : ClientState :=
  { seq := 1, pending := [], closing := false, shutdown := false,
    inflight := none, registered := [], doneLog := [], writeAttempts := 0 }

/-- Client.registerCall: refuse with ErrShutdown when closing or
shutdown; otherwise store the call under the current seq, bump seq, and
return the assigned seq. -/
def registerCall (st : ClientState) (sm : String) : ClientState × Option Nat :=
  if st.closing || st.shutdown then
    (st, none)
  else
    let s := st.seq
    ({ st with
        pending := (s, { seq := s, serviceMethod := sm, err := none }) :: st.pending,
        seq := st.seq + 1,
        registered := s :: st.registered }, some s)

/-- Client.removeCall: read the entry under seq out of the map, delete
the key, and return what was found. -/
def removeCall (st : ClientState) (s : Nat) : ClientState × Option RpcCall :=
  (({ st with pending := st.pending.filter (fun p => !(p.1 == s)) }),
   st.pending.lookup s)

/-- Client.terminateCalls: take sending and mu, set shutdown, and for
every call still pending set its Error to the given error and signal
done().  The loop does not delete the map entries; the error is written
through the shared pointer, so the entries that remain in the table
carry it too. -/
def terminateCalls (st : ClientState) (msg : String) : ClientState :=
  { st with
      shutdown := true,
      pending := st.pending.map (fun p => (p.1, { p.2 with err := some msg })),
      doneLog := (st.pending.map (fun p => { p.2 with err := some msg })) ++ st.doneLog }

/-- Where one iteration of the receive loop decoded the body to. -/
inductive BodyTarget where
  | discard
  | intoReply (seq : Nat)
  deriving DecidableEq, Repr

/-- Observable outcome of one receive-loop iteration: where the body was
consumed to and which call value, if any, was signalled done. -/
structure RecvOut where
  target : BodyTarget
  signaled : Option RpcCall
  deriving DecidableEq, Repr

/-- One iteration of Client.receive after a header h was decoded.
`bodyErr` is the outcome the codec reports for the ReadBody of this
message (`none` = success).  Mirrors the three-way switch of the source:
no matching call -> ReadBody(nil), no signal; non-empty h.Error ->
ReadBody(nil), attach the error, done(); otherwise ReadBody(call.Reply),
attach a reading-body error on failure, done() either way. -/
def recvStep (st : ClientState) (h : Header) (bodyErr : Option String) :
    ClientState × RecvOut :=
  let rm := removeCall st h.seq
  match rm.2 with
  | none =>
      (rm.1, { target := .discard, signaled := none })
  | some call =>
      if h.error ≠ "" then
        let call := { call with err := some h.error }
        ({ rm.1 with doneLog := call :: rm.1.doneLog },
         { target := .discard, signaled := some call })
      else
        let call :=
          match bodyErr with
          | none => call
          | some e => { call with err := some ("reading body " ++ e) }
        ({ rm.1 with doneLog := call :: rm.1.doneLog },
         { target := .intoReply h.seq, signaled := some call })

/-- First half of Client.send, run under the sending lock: registerCall;
on refusal set call.Error = ErrShutdown and done() immediately (the Seq
field of such a call was never assigned and stays 0). -/
def sendRegStep (st : ClientState) (sm : String) : ClientState :=
  match registerCall st sm with
  | (st1, some s) => { st1 with inflight := some s }
  | (st1, none) =>
      { st1 with
          inflight := none,
          doneLog := { seq := 0, serviceMethod := sm, err := some errShutdownMsg }
                       :: st1.doneLog }

/-- Second half of Client.send, still under the sending lock: write the
header and arguments; on a write error remove the call (it may already
be gone if the receive loop raced a response) and, only if still
present, attach the error and done(). -/
def sendFinStep (st : ClientState) (writeErr : Option String) : ClientState :=
  match st.inflight with
  | none => st
  | some s =>
      let st := { st with inflight := none, writeAttempts := st.writeAttempts + 1 }
      match writeErr with
      | none => st
      | some e =>
          let rm := removeCall st s
          match rm.2 with
          | none => rm.1
          | some call =>
              { rm.1 with doneLog := { call with err := some e } :: rm.1.doneLog }

/-- Client.Close: an already-closing client is refused with ErrShutdown;
otherwise mark closing (the codec close is what later errors the receive
loop). -/
def closeStep (st : ClientState) : ClientState :=
  if st.closing then st else { st with closing := true }

/-- Atomic events of one client connection, at the grain the two mutexes
of the source allow to interleave. -/
inductive CEvent where
  | sendReg (sm : String)
  | sendFin (writeErr : Option String)
  | recv (h : Header) (bodyErr : Option String)
  | close
  | terminate (msg : String)
  deriving DecidableEq, Repr

/-- Step of the event semantics. -/
def stepEv (st : ClientState) : CEvent → ClientState
  | .sendReg sm => sendRegStep st sm
  | .sendFin w => sendFinStep st w
  | .recv h b => (recvStep st h b).1
  | .close => closeStep st
  | .terminate msg => terminateCalls st msg

/-- Run a list of events from a state. -/
def runEvents (st : ClientState) : List CEvent → ClientState
  | [] => st
  | e :: es => runEvents (stepEv st e) es

/-- Number of entries of the pending table under sequence number s. -/
def pendCnt (st : ClientState) (s : Nat) : Nat :=
  st.pending.countP (fun p => p.1 == s)

/-- Number of done() signals delivered to the call with sequence number
s. -/
def doneCnt (st : ClientState) (s : Nat) : Nat :=
  st.doneLog.countP (fun c => c.seq == s)

/-- Events other than terminate: what may happen while the receive loop
is still alive. -/
def notTerminate : CEvent → Prop
  | .terminate _ => False
  | _ => True

/-- Events that may still happen after the receive loop has exited and
terminateCalls has run: new submissions and Close, but no receive-loop
iteration. -/
def postEvent : CEvent → Prop
  | .sendReg _ => True
  | .sendFin _ => True
  | .close => True
  | _ => False

instance (e : CEvent) : Decidable (notTerminate e) := by
  cases e <;> simp [notTerminate] <;> infer_instance

instance (e : CEvent) : Decidable (postEvent e) := by
  cases e <;> simp [postEvent] <;> infer_instance

/-- parseOptions from the client: zero options or a nil first option
yield the default; otherwise more than one option is refused; the single
option has its MagicNumber overwritten with the default and an empty
CodecType replaced by the default codec type. -/
def parseOptions (opts : List (Option OptionMsg)) : Except String OptionMsg :=
  match opts with
  | [] => .ok DefaultOption
  | none :: _ => .ok DefaultOption
  | some o :: rest =>
      if rest.length ≠ 0 then
        .error "number of options is more than 1"
      else
        let o := { o with MagicNumber := DefaultOption.MagicNumber }
        let o := if o.CodecType = "" then { o with CodecType := DefaultOption.CodecType } else o
        .ok o

/-- The done-channel setup at the top of Client.Go: a nil channel is
replaced by a fresh one of capacity 10; an unbuffered channel (capacity
0) is a programming error and panics; any other channel is used as-is.
A channel is represented by its capacity, a panic by the error case. -/
def goDoneChannel (done : Option Nat) : Except String Nat :=
  match done with
  | none => .ok 10
  | some c => if c = 0 then .error "rpc client: done channel is unbuffered" else .ok c

/-- Example state for concrete instantiations: a client already shut
down by a receive-loop error. -/
def shutClient : ClientState :=
  { initClient with shutdown := true }

/-- Example state for concrete instantiations: a client with one call
(sequence 1) registered and sent. -/
def oneCallClient : ClientState :=
  { seq := 2,
    pending := [(1, { seq := 1, serviceMethod := "Foo.Sum", err := none })],
    closing := false, shutdown := false, inflight := none,
    registered := [1],
    doneLog := [], writeAttempts := 1 }

end GoRPC

namespace Service

/-- Kinds of the reflect types the dispatch layer distinguishes. -/
inductive RKind where
  | kInt | kString | kBool | kMap | kSlice | kPtr | kStruct
  deriving DecidableEq, Repr

/-- The fragment of reflect.Type the server pipeline inspects. -/
inductive RType where
  | tInt
  | tString
  | tBool
  | tMap (key val : RType)
  | tSlice (e : RType)
  | tPtr (e : RType)
  | tStruct (name : String)
  deriving DecidableEq, Repr

/-- reflect Kind of a type. -/
def RType.kind : RType → RKind
  | .tInt => .kInt
  | .tString => .kString
  | .tBool => .kBool
  | .tMap _ _ => .kMap
  | .tSlice _ => .kSlice
  | .tPtr _ => .kPtr
  | .tStruct _ => .kStruct

/-- reflect Elem(): element type of a pointer or slice, value type of a
map; calling Elem on any other kind panics, modelled by none. -/
def RType.elem : RType → Option RType
  | .tPtr e => some e
  | .tSlice e => some e
  | .tMap _ v => some v
  | _ => none

/-- The fragment of reflect.Value the claims observe: nil-ness of maps,
slices and pointers, and emptiness of freshly made maps and slices (a
made map or slice is never nil; its payload beyond the size is not
tracked). -/
inductive RVal where
  | vInt (n : Int)
  | vString (s : String)
  | vBool (b : Bool)
  | vMapNil
  | vMapMk (size : Nat)
  | vSliceNil
  | vSliceMk (len : Nat)
  | vPtrNil
  | vPtr (target : RVal)
  | vStruct (name : String)
  deriving DecidableEq, Repr

/-- The zero value reflect.New allocates for each type: nil for maps,
slices and pointers. -/
def zeroValue : RType → RVal
  | .tInt => .vInt 0
  | .tString => .vString ""
  | .tBool => .vBool false
  | .tMap _ _ => .vMapNil
  | .tSlice _ => .vSliceNil
  | .tPtr _ => .vPtrNil
  | .tStruct n => .vStruct n

/-- Is the value a nil map. -/
def RVal.isNilMap : RVal → Bool
  | .vMapNil => true
  | _ => false

/-- Is the value a nil slice. -/
def RVal.isNilSlice : RVal → Bool
  | .vSliceNil => true
  | _ => false

/-- methodType from the service package: the argument and reply types of
one registered method plus the method itself, modelled as a function
from the decoded argument and the freshly allocated reply holder to an
application error or the populated reply (the atomic numCalls counter is
kept as a plain field; it is not touched by the embedded pipeline since
no claim mentions it). -/
structure methodType where
  name : String
  ArgType : RType
  ReplyType : RType
  impl : RVal → RVal → Except String RVal
  numCalls : Nat := 0

/-- methodType.newArgv: a pointer argument type allocates the pointed-to
zero value and takes its address; a value argument type allocates the
zero value itself (reflect.New(t).Elem()). -/
def methodType.newArgv (m : methodType) : RVal :=
  match m.ArgType with
  | .tPtr e => .vPtr (zeroValue e)
  | t => zeroValue t

/-- methodType.newReplyv: replyv := reflect.New(ReplyType.Elem()), then
if the element kind is Map or Slice the pointed-to value is set to a
made (non-nil, empty) map or slice.  Elem on a kind without an element
type panics, modelled by none. -/
def methodType.newReplyv (m : methodType) : Option RVal :=
  match m.ReplyType.elem with
  | none => none
  | some e =>
      let inner :=
        match e.kind with
        | .kMap => RVal.vMapMk 0
        | .kSlice => RVal.vSliceMk 0
        | _ => zeroValue e
      some (.vPtr inner)

/-- service from the service package: its name and its method table. -/
structure service where
  name : String
  method : List (String × methodType)

/-- service.call: invoke the bound method with argv and the reply
holder; the result is the application error or the populated reply
holder (the numCalls increment is elided, see methodType). -/
def service.call (_svc : service) (m : methodType) (argv replyv : RVal) :
    Except String RVal :=
  m.impl argv replyv

/-- Server from the service package: the registered service map. -/
structure Server where
  serviceMap : List (String × service)

/-- Index of the last occurrence of a dot, as strings.LastIndex(s, ".")
restricted to the one-character separator the server uses. -/
def lastIndexOfDot : List Char → Option Nat
  | [] => none
  | c :: rest =>
      match lastIndexOfDot rest with
      | some i => some (i + 1)
      | none => if c = '.' then some 0 else none

/-- Server.findService: split the name at the last dot (ill-formed
without one), look the service part up in the service map and the method
part up in the service's method table. -/
def Server.findService (srv : Server) (serviceMethod : String) :
    Except String (service × methodType) :=
  match lastIndexOfDot serviceMethod.data with
  | none => .error ("rpc server: service/method request ill-formed: " ++ serviceMethod)
  | some dot =>
      let serviceName := String.mk (serviceMethod.data.take dot)
      let methodName := String.mk (serviceMethod.data.drop (dot + 1))
      match List.lookup serviceName srv.serviceMap with
      | none => .error ("rpc server: can't find service" ++ serviceName)
      | some svc =>
          match List.lookup methodName svc.method with
          | none => .error ("rpc server: can't find method " ++ methodName)
          | some mtype => .ok (svc, mtype)

/-- One inbound message of a connection, as the server pipeline sees it:
either the header decode failed (with the codec's error text), or a
header was decoded and the subsequent body decode yields either an error
or the decoded argument value. -/
inductive InMsg where
  | headerFail (e : String)
  | msg (h : Header) (body : Except String RVal)

/-- request from the service package: the decoded header plus, when
resolution got that far, the materialized argument, the allocated reply
holder, the resolved method and its service. -/
structure Request where
  h : Header
  argv : Option RVal
  replyv : Option RVal
  mtype : Option methodType
  svc : Option service

/-- Server.readRequest: a header decode failure returns (nil, err); a
findService failure returns a request holding only the header, plus the
error; otherwise argv and replyv are allocated from the method's types
and the body is decoded into the argument holder (on body-decode failure
the request and the error are both returned).  The outer none models the
reflect panic of newReplyv on a reply type without an element type. -/
def Server.readRequest (srv : Server) (i : InMsg) :
    Option (Option Request × Option String) :=
  match i with
  | .headerFail e => some (none, some e)
  | .msg h body =>
      match srv.findService h.serviceMethod with
      | .error e => some (some ⟨h, none, none, none, none⟩, some e)
      | .ok (svc, mtype) =>
          let argv := mtype.newArgv
          match mtype.newReplyv with
          | none => none
          | some replyv =>
              match body with
              | .error e => some (some ⟨h, some argv, some replyv, some mtype, some svc⟩, some e)
              | .ok v =>
                  let argv := match argv with | .vPtr _ => RVal.vPtr v | _ => v
                  some (some ⟨h, some argv, some replyv, some mtype, some svc⟩, none)

/-- Body of one response: the fixed invalidRequest placeholder (an empty
struct) used for every error response, or a reply value. -/
inductive RespBody where
  | invalid
  | body (v : RVal)
  deriving Repr

/-- Server.handleRequest: invoke the resolved method; on an application
error put its text in the header's error field and answer with the
placeholder; on success answer with the populated reply holder.  The
catch-all arm is unreachable: handleRequest is only invoked on requests
read without error, which carry all four fields. -/
def Server.handleRequest (_srv : Server) (req : Request) : Header × RespBody :=
  match req.svc, req.mtype, req.argv, req.replyv with
  | some svc, some mtype, some argv, some replyv =>
      match svc.call mtype argv replyv with
      | .error e => ({ req.h with error := e }, .invalid)
      | .ok rv => (req.h, .body rv)
  | _, _, _, _ => (req.h, .invalid)

/-- Server.serveCodec: repeatedly read a request; a failure with no
request at all breaks the loop (connection closed); a failure with a
request is answered at once with the error in the header and the
invalidRequest placeholder, and the loop continues; a successful read is
dispatched and answered.  Result: the responses written on the
connection (the concurrent dispatches serialized in request order, a
linearization the per-connection sending lock permits) and the number of
header reads attempted. -/
def Server.serveCodec (srv : Server) : List InMsg → List (Header × RespBody) × Nat
  | [] => ([], 0)
  | i :: rest =>
      match srv.readRequest i with
      | none => ([], 1)
      | some (none, _) => ([], 1)
      | some (some req, some e) =>
          let r := srv.serveCodec rest
          (({ req.h with error := e }, .invalid) :: r.1, r.2 + 1)
      | some (some req, none) =>
          let r := srv.serveCodec rest
          (srv.handleRequest req :: r.1, r.2 + 1)

/-- Server.ServeConn: decode the Option record (none = json decode
failure), verify the magic constant, look the codec constructor up; on
any failure return at once — the deferred conn.Close fires, no request
header is read and no response is written.  Result: responses written
and request headers read. -/
def Server.ServeConn (srv : Server) (decodedOpt : Option OptionMsg)
    (msgs : List InMsg) : List (Header × RespBody) × Nat :=
  match decodedOpt with
  | none => ([], 0)
  | some opt =>
      if opt.MagicNumber ≠ MagicNumber then ([], 0)
      else
        match NewCodecFuncMap opt.CodecType with
        | none => ([], 0)
        | some _ => srv.serveCodec msgs

/-- Example method handle for concrete instantiations. -/
def sumMethod : methodType :=
  { name := "Sum", ArgType := .tInt, ReplyType := .tPtr .tInt,
    impl := fun _ r => .ok r }

/-- Example service for concrete instantiations. -/
def fooService : service :=
  { name := "Foo", method := [("Sum", sumMethod)] }

/-- Example server with fooService registered. -/
def exampleServer : Server :=
  { serviceMap := [("Foo", fooService)] }

/-- Example request header naming an unregistered service. -/
def demoHeader : Header :=
  { serviceMethod := "Nope.Sum", seq := 1, error := "" }

end Service

namespace GoRPC

/-! Helper lemmas about the pending table viewed as a finite map. -/

theorem countP_eq_zero_of_lookup_none {l : List (Nat × RpcCall)} {s : Nat}
    (h : l.lookup s = none) : l.countP (fun p => p.1 == s) = 0 := by
  rw [List.countP_eq_zero]
  intro p hp
  have h2 := List.lookup_eq_none_iff.mp h p hp
  simp only [bne_iff_ne, ne_eq] at h2
  simp only [beq_iff_eq]
  exact fun e => h2 e.symm

theorem filter_eq_of_lookup_none {l : List (Nat × RpcCall)} {s : Nat}
    (h : l.lookup s = none) : l.filter (fun p => !(p.1 == s)) = l := by
  apply List.filter_eq_self.mpr
  intro p hp
  have h2 := List.lookup_eq_none_iff.mp h p hp
  simp only [bne_iff_ne, ne_eq] at h2
  simp only [Bool.not_eq_eq_eq_not, Bool.not_true, beq_eq_false_iff_ne, ne_eq]
  exact fun e => h2 e.symm

theorem mem_of_lookup_eq_some {l : List (Nat × RpcCall)} {s : Nat} {c : RpcCall}
    (h : l.lookup s = some c) : (s, c) ∈ l := by
  obtain ⟨l1, l2, hl, -⟩ := List.lookup_eq_some_iff.mp h
  subst hl
  exact List.mem_append.mpr (Or.inr (List.mem_cons_self _ _))

theorem countP_filter_key (l : List (Nat × RpcCall)) (s0 s : Nat) :
    (l.filter (fun p => !(p.1 == s0))).countP (fun p => p.1 == s)
      = if s = s0 then 0 else l.countP (fun p => p.1 == s) := by
  rw [List.countP_filter]
  by_cases hss : s = s0
  · subst hss
    rw [if_pos rfl, List.countP_eq_zero]
    intro p _
    simp
  · rw [if_neg hss]
    apply List.countP_congr
    intro p _
    by_cases hp : p.1 = s
    · simp [hp, beq_iff_eq, hss]
    · simp [beq_iff_eq, hp]

theorem countP_pos_of_mem {l : List (Nat × RpcCall)} {s : Nat} {c : RpcCall}
    (h : (s, c) ∈ l) : 0 < l.countP (fun p => p.1 == s) := by
  rw [List.countP_pos_iff]
  exact ⟨(s, c), h, by simp⟩

/-! The invariant of the pending table / done log bookkeeping. -/

/-- Count of pending entries stored under sequence number s. -/
theorem pendCnt_eq (st : ClientState) (s : Nat) :
    pendCnt st s = st.pending.countP (fun p => p.1 == s) := rfl

/-- Count of done() signals recorded for sequence number s. -/
theorem doneCnt_eq (st : ClientState) (s : Nat) :
    doneCnt st s = st.doneLog.countP (fun c => c.seq == s) := rfl

/-- Invariant while the receive loop is alive: every registered call is
pending or signalled, never both; only registered calls are pending;
registered sequence numbers are at least 1 and below the counter; every
done log entry is for an unregistered submission (Seq 0) or a registered
one; and the table stores each call under its own Seq field. -/
def Inv (st : ClientState) : Prop :=
  (∀ s, s ∈ st.registered → pendCnt st s + doneCnt st s = 1) ∧
  (∀ s, s ∉ st.registered → pendCnt st s = 0) ∧
  ((∀ s, s ∈ st.registered → 1 ≤ s ∧ s < st.seq) ∧ 1 ≤ st.seq) ∧
  (∀ c, c ∈ st.doneLog → c.seq = 0 ∨ c.seq ∈ st.registered) ∧
  (∀ p, p ∈ st.pending → (p : Nat × RpcCall).2.seq = p.1)

/-- Invariant after terminateCalls: the client is shut down, no send is
mid-flight, and every registered call has been signalled exactly once. -/
def InvT (st : ClientState) : Prop :=
  st.shutdown = true ∧ st.inflight = none ∧
  (∀ s, s ∈ st.registered → 1 ≤ s ∧ doneCnt st s = 1)

theorem inv_init : Inv initClient := by
  refine ⟨?_, ?_, ⟨?_, ?_⟩, ?_, ?_⟩ <;> simp [initClient, pendCnt, doneCnt]

/-! Normal forms of the individual operations. -/

theorem sendRegStep_refused (st : ClientState) (sm : String)
    (h : st.closing = true ∨ st.shutdown = true) :
    sendRegStep st sm = { st with
      inflight := none,
      doneLog := { seq := 0, serviceMethod := sm, err := some errShutdownMsg }
                   :: st.doneLog } := by
  have hc : (st.closing || st.shutdown) = true := by rcases h with h | h <;> simp [h]
  simp [sendRegStep, registerCall, hc]

theorem sendRegStep_accepted (st : ClientState) (sm : String)
    (h1 : st.closing = false) (h2 : st.shutdown = false) :
    sendRegStep st sm = { st with
      pending := (st.seq, { seq := st.seq, serviceMethod := sm, err := none }) :: st.pending,
      seq := st.seq + 1,
      registered := st.seq :: st.registered,
      inflight := some st.seq } := by
  simp [sendRegStep, registerCall, h1, h2]

theorem sendFinStep_idle (st : ClientState) (w : Option String)
    (h : st.inflight = none) : sendFinStep st w = st := by
  simp [sendFinStep, h]

theorem sendFinStep_wrote (st : ClientState) (s : Nat) (h : st.inflight = some s) :
    sendFinStep st none = { st with
      inflight := none,
      writeAttempts := st.writeAttempts + 1 } := by
  simp [sendFinStep, h]

theorem sendFinStep_failed_gone (st : ClientState) (s : Nat) (e : String)
    (h : st.inflight = some s) (hlk : st.pending.lookup s = none) :
    sendFinStep st (some e) = { st with
      inflight := none,
      writeAttempts := st.writeAttempts + 1 } := by
  simp only [sendFinStep, h, removeCall, hlk]
  rw [filter_eq_of_lookup_none hlk]

theorem sendFinStep_failed_present (st : ClientState) (s : Nat) (e : String)
    (call : RpcCall) (h : st.inflight = some s) (hlk : st.pending.lookup s = some call) :
    sendFinStep st (some e) = { st with
      inflight := none,
      writeAttempts := st.writeAttempts + 1,
      pending := st.pending.filter (fun p => !(p.1 == s)),
      doneLog := { call with err := some e } :: st.doneLog } := by
  simp [sendFinStep, h, removeCall, hlk]

theorem recvStep_miss (st : ClientState) (h : Header) (b : Option String)
    (hlk : st.pending.lookup h.seq = none) :
    recvStep st h b = (st, { target := .discard, signaled := none }) := by
  simp only [recvStep, removeCall, hlk]
  rw [filter_eq_of_lookup_none hlk]

theorem recvStep_errorHeader (st : ClientState) (h : Header) (b : Option String)
    (call : RpcCall) (hlk : st.pending.lookup h.seq = some call) (he : h.error ≠ "") :
    recvStep st h b =
      ({ st with pending := st.pending.filter (fun p => !(p.1 == h.seq)),
                 doneLog := { call with err := some h.error } :: st.doneLog },
       { target := .discard, signaled := some { call with err := some h.error } }) := by
  simp [recvStep, removeCall, hlk, he]

theorem recvStep_reply_ok (st : ClientState) (h : Header)
    (call : RpcCall) (hlk : st.pending.lookup h.seq = some call) (he : h.error = "") :
    recvStep st h none =
      ({ st with pending := st.pending.filter (fun p => !(p.1 == h.seq)),
                 doneLog := call :: st.doneLog },
       { target := .intoReply h.seq, signaled := some call }) := by
  simp [recvStep, removeCall, hlk, he]

theorem recvStep_reply_badBody (st : ClientState) (h : Header) (e : String)
    (call : RpcCall) (hlk : st.pending.lookup h.seq = some call) (he : h.error = "") :
    recvStep st h (some e) =
      ({ st with pending := st.pending.filter (fun p => !(p.1 == h.seq)),
                 doneLog := { call with err := some ("reading body " ++ e) } :: st.doneLog },
       { target := .intoReply h.seq,
         signaled := some { call with err := some ("reading body " ++ e) } }) := by
  simp [recvStep, removeCall, hlk, he]

/-! Preservation of the invariant. -/

/-- Resolving a pending call (receive loop match, or write-failure
removal): the entry leaves the table and one done() signal for its
sequence number is logged. -/
theorem inv_resolve {st st' : ClientState} {s : Nat} {call c2 : RpcCall}
    (h : Inv st)
    (hlk : st.pending.lookup s = some call)
    (hp : st'.pending = st.pending.filter (fun p => !(p.1 == s)))
    (hd : st'.doneLog = c2 :: st.doneLog)
    (hseq : c2.seq = call.seq)
    (hr : st'.registered = st.registered)
    (hsq : st'.seq = st.seq) : Inv st' := by
  obtain ⟨hA, hB, ⟨hC, hC1⟩, hE, hK⟩ := h
  have hmem := mem_of_lookup_eq_some hlk
  have hcs : call.seq = s := hK _ hmem
  have hpos : 0 < pendCnt st s := by
    rw [pendCnt_eq]; exact countP_pos_of_mem hmem
  have hsreg : s ∈ st.registered := by
    by_contra hns
    have := hB s hns
    omega
  have hpend : ∀ t, pendCnt st' t = if t = s then 0 else pendCnt st t := by
    intro t
    rw [pendCnt_eq, hp, countP_filter_key, ← pendCnt_eq]
  have hc2 : c2.seq = s := hseq.trans hcs
  have hdone : ∀ t, doneCnt st' t = doneCnt st t + if t = s then 1 else 0 := by
    intro t
    rw [doneCnt_eq, hd, List.countP_cons, ← doneCnt_eq]
    rw [hc2]
    by_cases hts : t = s
    · subst hts
      simp
    · have h1 : ¬ ((s == t) = true) := by
        simp only [beq_iff_eq]
        exact fun e => hts e.symm
      rw [if_neg h1, if_neg hts]
  refine ⟨?_, ?_, ⟨?_, ?_⟩, ?_, ?_⟩
  · intro t ht
    rw [hr] at ht
    rw [hpend t, hdone t]
    by_cases hts : t = s
    · rw [if_pos hts, if_pos hts, hts]
      rw [hts] at ht
      have := hA s ht
      omega
    · rw [if_neg hts, if_neg hts]
      have := hA t ht
      omega
  · intro t ht
    rw [hr] at ht
    rw [hpend t]
    by_cases hts : t = s
    · rw [if_pos hts]
    · rw [if_neg hts]
      exact hB t ht
  · intro t ht
    rw [hr] at ht
    rw [hsq]
    exact hC t ht
  · rw [hsq]; exact hC1
  · intro c hc
    rw [hd] at hc
    rw [hr]
    rcases List.mem_cons.mp hc with hc | hc
    · subst hc
      rw [hseq, hcs]
      exact Or.inr hsreg
    · exact hE c hc
  · intro p hpm
    rw [hp] at hpm
    exact hK p (List.mem_filter.mp hpm).1

theorem countP_seq_cons_ne (l : List RpcCall) (c : RpcCall) (t : Nat) (hne : c.seq ≠ t) :
    (c :: l).countP (fun x => x.seq == t) = l.countP (fun x => x.seq == t) := by
  rw [List.countP_cons]
  have h1 : ¬ ((c.seq == t) = true) := by simp [beq_iff_eq, hne]
  rw [if_neg h1]
  omega

/-- Steps that touch none of the bookkeeping fields preserve the
invariant. -/
theorem inv_of_fields {st st' : ClientState} (h : Inv st)
    (hp : st'.pending = st.pending) (hd : st'.doneLog = st.doneLog)
    (hr : st'.registered = st.registered) (hsq : st'.seq = st.seq) : Inv st' := by
  obtain ⟨hA, hB, ⟨hC, hC1⟩, hE, hK⟩ := h
  have hpc : ∀ t, pendCnt st' t = pendCnt st t := by
    intro t; rw [pendCnt_eq, hp, pendCnt_eq]
  have hdc : ∀ t, doneCnt st' t = doneCnt st t := by
    intro t; rw [doneCnt_eq, hd, doneCnt_eq]
  refine ⟨?_, ?_, ⟨?_, ?_⟩, ?_, ?_⟩
  · intro t ht
    rw [hr] at ht
    rw [hpc, hdc]
    exact hA t ht
  · intro t ht
    rw [hr] at ht
    rw [hpc]
    exact hB t ht
  · intro t ht
    rw [hr] at ht
    rw [hsq]
    exact hC t ht
  · rw [hsq]; exact hC1
  · intro c hc
    rw [hd] at hc
    rw [hr]
    exact hE c hc
  · intro p hpm
    rw [hp] at hpm
    exact hK p hpm

/-- Logging one done() signal with sequence number 0 (a refused
submission) preserves the invariant. -/
theorem inv_done_zero {st st' : ClientState} {c : RpcCall} (h : Inv st)
    (hp : st'.pending = st.pending) (hd : st'.doneLog = c :: st.doneLog)
    (hc : c.seq = 0)
    (hr : st'.registered = st.registered) (hsq : st'.seq = st.seq) : Inv st' := by
  obtain ⟨hA, hB, ⟨hC, hC1⟩, hE, hK⟩ := h
  have hpc : ∀ t, pendCnt st' t = pendCnt st t := by
    intro t; rw [pendCnt_eq, hp, pendCnt_eq]
  have hdc : ∀ t, 1 ≤ t → doneCnt st' t = doneCnt st t := by
    intro t h1
    rw [doneCnt_eq, hd, doneCnt_eq]
    exact countP_seq_cons_ne _ _ _ (by omega)
  refine ⟨?_, ?_, ⟨?_, ?_⟩, ?_, ?_⟩
  · intro t ht
    rw [hr] at ht
    rw [hpc, hdc t (hC t ht).1]
    exact hA t ht
  · intro t ht
    rw [hr] at ht
    rw [hpc]
    exact hB t ht
  · intro t ht
    rw [hr] at ht
    rw [hsq]
    exact hC t ht
  · rw [hsq]; exact hC1
  · intro x hx
    rw [hd] at hx
    rw [hr]
    rcases List.mem_cons.mp hx with hx | hx
    · subst hx; exact Or.inl hc
    · exact hE x hx
  · intro p hpm
    rw [hp] at hpm
    exact hK p hpm

/-- Registering a fresh call preserves the invariant. -/
theorem inv_register {st st' : ClientState} {sm : String} (h : Inv st)
    (hp : st'.pending
      = (st.seq, { seq := st.seq, serviceMethod := sm, err := none }) :: st.pending)
    (hd : st'.doneLog = st.doneLog)
    (hr : st'.registered = st.seq :: st.registered)
    (hsq : st'.seq = st.seq + 1) : Inv st' := by
  obtain ⟨hA, hB, ⟨hC, hC1⟩, hE, hK⟩ := h
  have hnotreg : st.seq ∉ st.registered := by
    intro hin
    have := (hC _ hin).2
    omega
  have hpz : pendCnt st st.seq = 0 := hB _ hnotreg
  have hdz : doneCnt st st.seq = 0 := by
    rw [doneCnt_eq, List.countP_eq_zero]
    intro c hcmem
    simp only [beq_iff_eq]
    rcases hE c hcmem with h0 | hreg
    · omega
    · have := (hC _ hreg).2
      omega
  have hpc : ∀ t, pendCnt st' t = pendCnt st t + if st.seq = t then 1 else 0 := by
    intro t
    rw [pendCnt_eq, hp, List.countP_cons, ← pendCnt_eq]
    by_cases hts : st.seq = t
    · rw [if_pos hts, if_pos (by simp [hts])]
    · rw [if_neg hts, if_neg (by simp [hts])]
  have hdc : ∀ t, doneCnt st' t = doneCnt st t := by
    intro t; rw [doneCnt_eq, hd, doneCnt_eq]
  refine ⟨?_, ?_, ⟨?_, ?_⟩, ?_, ?_⟩
  · intro t ht
    rw [hr] at ht
    rw [hpc, hdc]
    rcases List.mem_cons.mp ht with ht | ht
    · rw [if_pos ht.symm, ht]
      omega
    · have hts : st.seq ≠ t := by
        intro e
        exact hnotreg (e ▸ ht)
      rw [if_neg hts]
      have := hA t ht
      omega
  · intro t ht
    rw [hr] at ht
    rw [hpc]
    have h1 : t ∉ st.registered := fun hx => ht (List.mem_cons_of_mem _ hx)
    have h2 : st.seq ≠ t := fun e => ht (e ▸ List.mem_cons_self _ _)
    rw [if_neg h2]
    have := hB t h1
    omega
  · intro t ht
    rw [hr] at ht
    rw [hsq]
    rcases List.mem_cons.mp ht with ht | ht
    · subst ht
      exact ⟨hC1, by omega⟩
    · have := hC t ht
      exact ⟨this.1, by omega⟩
  · rw [hsq]; omega
  · intro c hc
    rw [hd] at hc
    rw [hr]
    rcases hE c hc with h0 | hreg
    · exact Or.inl h0
    · exact Or.inr (List.mem_cons_of_mem _ hreg)
  · intro p hpm
    rw [hp] at hpm
    rcases List.mem_cons.mp hpm with hpm | hpm
    · subst hpm; rfl
    · exact hK p hpm

theorem inv_sendReg (st : ClientState) (sm : String) (h : Inv st) :
    Inv (sendRegStep st sm) := by
  by_cases hcs : st.closing = true ∨ st.shutdown = true
  · rw [sendRegStep_refused st sm hcs]
    apply inv_done_zero h <;> rfl
  · have h1 : st.closing = false := by
      cases hc : st.closing
      · rfl
      · exact absurd (Or.inl hc) hcs
    have h2 : st.shutdown = false := by
      cases hc : st.shutdown
      · rfl
      · exact absurd (Or.inr hc) hcs
    rw [sendRegStep_accepted st sm h1 h2]
    apply inv_register h <;> rfl

theorem inv_sendFin (st : ClientState) (w : Option String) (h : Inv st) :
    Inv (sendFinStep st w) := by
  cases hf : st.inflight with
  | none => rw [sendFinStep_idle st w hf]; exact h
  | some s =>
      cases w with
      | none =>
          rw [sendFinStep_wrote st s hf]
          apply inv_of_fields h <;> rfl
      | some e =>
          cases hlk : st.pending.lookup s with
          | none =>
              rw [sendFinStep_failed_gone st s e hf hlk]
              apply inv_of_fields h <;> rfl
          | some call =>
              rw [sendFinStep_failed_present st s e call hf hlk]
              apply inv_resolve h hlk <;> rfl

theorem inv_recv (st : ClientState) (hd : Header) (b : Option String) (h : Inv st) :
    Inv (recvStep st hd b).1 := by
  cases hlk : st.pending.lookup hd.seq with
  | none => rw [recvStep_miss st hd b hlk]; exact h
  | some call =>
      by_cases he : hd.error = ""
      · cases b with
        | none =>
            rw [recvStep_reply_ok st hd call hlk he]
            apply inv_resolve h hlk <;> rfl
        | some e =>
            rw [recvStep_reply_badBody st hd e call hlk he]
            apply inv_resolve h hlk <;> rfl
      · rw [recvStep_errorHeader st hd b call hlk he]
        apply inv_resolve h hlk <;> rfl

theorem inv_close (st : ClientState) (h : Inv st) : Inv (closeStep st) := by
  rw [closeStep]
  by_cases hc : st.closing = true
  · rw [if_pos hc]; exact h
  · rw [if_neg hc]
    apply inv_of_fields h <;> rfl

theorem inv_step (st : ClientState) (e : CEvent) (hnt : notTerminate e) (h : Inv st) :
    Inv (stepEv st e) := by
  cases e with
  | sendReg sm => exact inv_sendReg st sm h
  | sendFin w => exact inv_sendFin st w h
  | recv hd b => exact inv_recv st hd b h
  | close => exact inv_close st h
  | terminate msg => exact hnt.elim

theorem inv_run (st : ClientState) (evs : List CEvent)
    (hnt : ∀ e ∈ evs, notTerminate e) (h : Inv st) : Inv (runEvents st evs) := by
  induction evs generalizing st with
  | nil => exact h
  | cons e es ih =>
      rw [runEvents]
      exact ih (stepEv st e)
        (fun x hx => hnt x (List.mem_cons_of_mem _ hx))
        (inv_step st e (hnt e (List.mem_cons_self _ _)) h)

/-- terminateCalls delivers exactly one done() signal to every
registered call: its old pending count plus its old done count is one,
and the loop adds one signal per pending entry. -/
theorem doneCnt_terminateCalls (st : ClientState) (msg : String) (h : Inv st)
    (s : Nat) (hs : s ∈ st.registered) :
    doneCnt (terminateCalls st msg) s = 1 := by
  obtain ⟨hA, hB, ⟨hC, hC1⟩, hE, hK⟩ := h
  rw [doneCnt_eq]
  show ((st.pending.map (fun p : Nat × RpcCall => { p.2 with err := some msg }))
          ++ st.doneLog).countP (fun c : RpcCall => c.seq == s) = 1
  rw [List.countP_append, List.countP_map]
  have hmc : st.pending.countP
      ((fun c => c.seq == s) ∘ (fun p : Nat × RpcCall => { p.2 with err := some msg }))
      = pendCnt st s := by
    rw [pendCnt_eq]
    apply List.countP_congr
    intro p hp
    have hks := hK p hp
    simp only [Function.comp_apply, beq_iff_eq]
    constructor
    · intro he; rw [← hks]; exact he
    · intro he; rw [hks]; exact he
  rw [hmc, ← doneCnt_eq]
  have := hA s hs
  omega

/-- terminateCalls turns the live invariant into the post-termination
one: every registered call now counts exactly one done() signal. -/
theorem invT_terminate (st : ClientState) (msg : String)
    (hin : st.inflight = none) (h : Inv st) : InvT (terminateCalls st msg) := by
  refine ⟨rfl, hin, ?_⟩
  intro s hs
  have hs2 : s ∈ st.registered := hs
  exact ⟨(h.2.2.1.1 s hs2).1, doneCnt_terminateCalls st msg h s hs2⟩

theorem invT_step (st : ClientState) (e : CEvent) (hpe : postEvent e) (h : InvT st) :
    InvT (stepEv st e) := by
  obtain ⟨hsd, hin, hreg⟩ := h
  cases e with
  | sendReg sm =>
      rw [stepEv, sendRegStep_refused st sm (Or.inr hsd)]
      refine ⟨hsd, rfl, ?_⟩
      intro s hs
      have h1 := hreg s hs
      refine ⟨h1.1, ?_⟩
      rw [doneCnt_eq]
      show (({ seq := 0, serviceMethod := sm, err := some errShutdownMsg } : RpcCall)
              :: st.doneLog).countP (fun c : RpcCall => c.seq == s) = 1
      rw [countP_seq_cons_ne _ _ _ (by have := h1.1; simp; omega)]
      exact h1.2
  | sendFin w =>
      rw [stepEv, sendFinStep_idle st w hin]
      exact ⟨hsd, hin, hreg⟩
  | close =>
      rw [stepEv, closeStep]
      by_cases hc : st.closing = true
      · rw [if_pos hc]; exact ⟨hsd, hin, hreg⟩
      · rw [if_neg hc]; exact ⟨hsd, hin, hreg⟩
  | recv hd b => exact hpe.elim
  | terminate m => exact hpe.elim

theorem invT_run (st : ClientState) (evs : List CEvent)
    (hpe : ∀ e ∈ evs, postEvent e) (h : InvT st) : InvT (runEvents st evs) := by
  induction evs generalizing st with
  | nil => exact h
  | cons e es ih =>
      rw [runEvents]
      exact ih (stepEv st e)
        (fun x hx => hpe x (List.mem_cons_of_mem _ hx))
        (invT_step st e (hpe e (List.mem_cons_self _ _)) h)

theorem runEvents_append (st : ClientState) (l1 l2 : List CEvent) :
    runEvents st (l1 ++ l2) = runEvents (runEvents st l1) l2 := by
  induction l1 generalizing st with
  | nil => rfl
  | cons e es ih => rw [List.cons_append, runEvents, runEvents, ih]

/-- C1: in every execution of one client connection — any interleaving
of sends (split at the lock-permitted points), receive-loop iterations
with arbitrary header and body outcomes, and Close, followed by the
terminateCalls of the exiting receive loop and then any further
submissions — every Call that registerCall accepted receives exactly one
done() signal, whichever path resolved it (normal reply, non-empty
header error, body-decode failure, write failure, or force-completion by
terminateCalls). -/
theorem client_exactly_one_completion
    (pre post : List CEvent) (msg : String)
    (hpre : ∀ e ∈ pre, notTerminate e)
    (hpost : ∀ e ∈ post, postEvent e)
    (hopen : (runEvents initClient pre).inflight = none)
    (s : Nat)
    (hs : s ∈ (runEvents initClient (pre ++ CEvent.terminate msg :: post)).registered) :
    doneCnt (runEvents initClient (pre ++ CEvent.terminate msg :: post)) s = 1 := by
  have h1 : Inv (runEvents initClient pre) := inv_run _ _ hpre inv_init
  have h3 : InvT (runEvents initClient (pre ++ CEvent.terminate msg :: post)) := by
    rw [runEvents_append]
    show InvT (runEvents (stepEv (runEvents initClient pre) (CEvent.terminate msg)) post)
    exact invT_run _ _ hpost (invT_terminate _ msg hopen h1)
  exact (h3.2.2 s hs).2

/-- Witness for C1: a concrete trace with one delivered call, one call
pending at termination, and one submission refused after shutdown. -/
theorem client_exactly_one_completion_witness :
    doneCnt (runEvents initClient
      ([CEvent.sendReg "Foo.Sum", CEvent.sendFin none,
        CEvent.recv { serviceMethod := "Foo.Sum", seq := 1, error := "" } none,
        CEvent.sendReg "Foo.Mul", CEvent.sendFin none]
        ++ CEvent.terminate "EOF" :: [CEvent.sendReg "Foo.Late"])) 2 = 1 :=
  client_exactly_one_completion
    [CEvent.sendReg "Foo.Sum", CEvent.sendFin none,
     CEvent.recv { serviceMethod := "Foo.Sum", seq := 1, error := "" } none,
     CEvent.sendReg "Foo.Mul", CEvent.sendFin none]
    [CEvent.sendReg "Foo.Late"] "EOF"
    (by decide) (by decide) (by decide) 2 (by decide)

/-- C2 counterexample: after one registered send and terminateCalls,
the pending table still holds its entry — terminateCalls does not delete
map entries, so the table is not drained. -/
theorem terminate_leaves_pending_entry :
    (runEvents initClient
      [CEvent.sendReg "Foo.Sum", CEvent.sendFin none, CEvent.terminate "EOF"]).pending
      = [(1, { seq := 1, serviceMethod := "Foo.Sum", err := some "EOF" })] ∧
    (runEvents initClient
      [CEvent.sendReg "Foo.Sum", CEvent.sendFin none, CEvent.terminate "EOF"]).pending
      ≠ [] := by
  constructor
  · rfl
  · decide

/-- C2 amended: when the connection terminates, the entries of the
pending table are not removed — each remains in the map with the
termination error attached — but the client is marked shutdown and every
entry still pending is force-completed: the error is attached and its
done() signal is delivered exactly once. -/
theorem terminate_force_completes_pending
    (pre : List CEvent) (msg : String)
    (hpre : ∀ e ∈ pre, notTerminate e) :
    (terminateCalls (runEvents initClient pre) msg).shutdown = true ∧
    (terminateCalls (runEvents initClient pre) msg).pending
      = (runEvents initClient pre).pending.map
          (fun p => (p.1, { p.2 with err := some msg })) ∧
    (∀ p ∈ (runEvents initClient pre).pending,
       { p.2 with err := some msg }
           ∈ (terminateCalls (runEvents initClient pre) msg).doneLog ∧
       doneCnt (terminateCalls (runEvents initClient pre) msg) p.1 = 1) := by
  have h1 : Inv (runEvents initClient pre) := inv_run _ _ hpre inv_init
  refine ⟨rfl, rfl, ?_⟩
  intro p hp
  constructor
  · have hmem : { p.2 with err := some msg }
        ∈ (runEvents initClient pre).pending.map
            (fun q : Nat × RpcCall => { q.2 with err := some msg }) :=
      List.mem_map_of_mem _ hp
    exact List.mem_append.mpr (Or.inl hmem)
  · have hreg : p.1 ∈ (runEvents initClient pre).registered := by
      by_contra hn
      have h0 := h1.2.1 _ hn
      have hpos : 0 < pendCnt (runEvents initClient pre) p.1 := by
        rw [pendCnt_eq, List.countP_pos_iff]
        exact ⟨p, hp, by simp⟩
      omega
    exact doneCnt_terminateCalls _ msg h1 p.1 hreg

/-- Witness for C2 amended, at the concrete one-call trace. -/
theorem terminate_force_completes_pending_witness :
    { ({ seq := 1, serviceMethod := "Foo.Sum", err := none } : RpcCall)
        with err := some "EOF" }
      ∈ (terminateCalls (runEvents initClient
          [CEvent.sendReg "Foo.Sum", CEvent.sendFin none]) "EOF").doneLog ∧
    doneCnt (terminateCalls (runEvents initClient
        [CEvent.sendReg "Foo.Sum", CEvent.sendFin none]) "EOF") 1 = 1 :=
  (terminate_force_completes_pending
      [CEvent.sendReg "Foo.Sum", CEvent.sendFin none] "EOF" (by decide)).2.2
    (1, { seq := 1, serviceMethod := "Foo.Sum", err := none }) (by decide)

/-- C3: for every state, decoded header and body outcome, the receive
loop step behaves by cases on the pending lookup: no matching call —
body consumed into the discard target, nothing signalled, state
untouched; header carrying a non-empty error — body discarded, the
error attached to the removed call, completion signalled; otherwise —
body decoded into the call's reply destination, a decode failure
attached as a reading-body error, completion signalled either way. -/
theorem receive_dispatch_cases (st : ClientState) (h : Header) (b : Option String) :
    (st.pending.lookup h.seq = none →
       recvStep st h b = (st, { target := .discard, signaled := none })) ∧
    (∀ call, st.pending.lookup h.seq = some call → h.error ≠ "" →
       recvStep st h b =
         ({ st with pending := st.pending.filter (fun p => !(p.1 == h.seq)),
                    doneLog := { call with err := some h.error } :: st.doneLog },
          { target := .discard,
            signaled := some { call with err := some h.error } })) ∧
    (∀ call, st.pending.lookup h.seq = some call → h.error = "" →
       recvStep st h b =
         ({ st with pending := st.pending.filter (fun p => !(p.1 == h.seq)),
                    doneLog := (match b with
                      | none => call
                      | some e => { call with err := some ("reading body " ++ e) })
                      :: st.doneLog },
          { target := .intoReply h.seq,
            signaled := some (match b with
                      | none => call
                      | some e => { call with err := some ("reading body " ++ e) }) })) := by
  refine ⟨?_, ?_, ?_⟩
  · intro hlk
    exact recvStep_miss st h b hlk
  · intro call hlk he
    exact recvStep_errorHeader st h b call hlk he
  · intro call hlk he
    cases b with
    | none => exact recvStep_reply_ok st h call hlk he
    | some e => exact recvStep_reply_badBody st h e call hlk he

/-- Witness for C3: the error-header case on a concrete one-call
state. -/
theorem receive_dispatch_cases_witness :
    recvStep oneCallClient { serviceMethod := "Foo.Sum", seq := 1, error := "boom" } none =
      ({ oneCallClient with
          pending := oneCallClient.pending.filter (fun p => !(p.1 == 1)),
          doneLog := { seq := 1, serviceMethod := "Foo.Sum", err := some "boom" }
                       :: oneCallClient.doneLog },
       { target := .discard,
         signaled := some { seq := 1, serviceMethod := "Foo.Sum", err := some "boom" } }) :=
  (receive_dispatch_cases oneCallClient
      { serviceMethod := "Foo.Sum", seq := 1, error := "boom" } none).2.1
    { seq := 1, serviceMethod := "Foo.Sum", err := none } (by decide) (by decide)

/-- C7: once the client is closing (Close) or shut down
(terminateCalls), a submission fails at once: registerCall refuses with
ErrShutdown leaving the table and counter untouched, and the send path
signals the call done with that error without attempting any codec
write (and a subsequent write step is a no-op). -/
theorem submit_after_shutdown_fails_fast (st : ClientState) (sm : String)
    (hcs : st.closing = true ∨ st.shutdown = true) :
    registerCall st sm = (st, none) ∧
    sendRegStep st sm = { st with
      inflight := none,
      doneLog := { seq := 0, serviceMethod := sm, err := some errShutdownMsg }
                   :: st.doneLog } ∧
    (sendRegStep st sm).pending = st.pending ∧
    (sendRegStep st sm).seq = st.seq ∧
    (sendRegStep st sm).writeAttempts = st.writeAttempts ∧
    (∀ w, sendFinStep (sendRegStep st sm) w = sendRegStep st sm) := by
  have hc : (st.closing || st.shutdown) = true := by
    rcases hcs with h | h <;> simp [h]
  have h1 : registerCall st sm = (st, none) := by
    simp [registerCall, hc]
  have h2 := sendRegStep_refused st sm hcs
  refine ⟨h1, h2, by rw [h2], by rw [h2], by rw [h2], ?_⟩
  intro w
  exact sendFinStep_idle _ w (by rw [h2])

/-- Witness for C7 on a shut-down client. -/
theorem submit_after_shutdown_fails_fast_witness :
    registerCall shutClient "Foo.Sum" = (shutClient, none) ∧
    sendRegStep shutClient "Foo.Sum" = { shutClient with
      inflight := none,
      doneLog := { seq := 0, serviceMethod := "Foo.Sum", err := some errShutdownMsg }
                   :: shutClient.doneLog } ∧
    (sendRegStep shutClient "Foo.Sum").pending = shutClient.pending ∧
    (sendRegStep shutClient "Foo.Sum").seq = shutClient.seq ∧
    (sendRegStep shutClient "Foo.Sum").writeAttempts = shutClient.writeAttempts ∧
    (∀ w, sendFinStep (sendRegStep shutClient "Foo.Sum") w
        = sendRegStep shutClient "Foo.Sum") :=
  submit_after_shutdown_fails_fast shutClient "Foo.Sum" (Or.inr (by decide))

/-- C8: the done-channel policy of Client.Go: a nil channel is replaced
by a fresh buffered channel of capacity 10, an unbuffered channel
panics, and a buffered channel is used as-is (the returned capacity is
the supplied one). -/
theorem go_done_channel_policy (c : Nat) (hc : 0 < c) :
    goDoneChannel none = .ok 10 ∧
    goDoneChannel (some 0) = .error "rpc client: done channel is unbuffered" ∧
    goDoneChannel (some c) = .ok c := by
  refine ⟨rfl, rfl, ?_⟩
  simp [goDoneChannel, hc.ne']

/-- Witness for C8 at capacity 3. -/
theorem go_done_channel_policy_witness :
    goDoneChannel none = .ok 10 ∧
    goDoneChannel (some 0) = .error "rpc client: done channel is unbuffered" ∧
    goDoneChannel (some 3) = .ok 3 :=
  go_done_channel_policy 3 (by decide)

/-- C9 counterexample: two options whose first is nil do not produce an
error — parseOptions checks the nil first element before the length, so
it returns the default option instead. -/
theorem parseOptions_two_options_without_error :
    parseOptions [none, none] = .ok DefaultOption ∧
    ([none, none] : List (Option OptionMsg)).length > 1 :=
  ⟨rfl, by decide⟩

/-- C9 amended: every successfully parsed Option carries the fixed
magic constant; zero options or a nil first option yield the default
Option (whatever the length in the nil-first case); a single non-nil
option has its MagicNumber overwritten and an empty CodecType replaced
by the gob default; and more than one option is an error only when the
first option is non-nil. -/
theorem parseOptions_normalization :
    (∀ opts o, parseOptions opts = .ok o → o.MagicNumber = MagicNumber) ∧
    (parseOptions [] = .ok DefaultOption) ∧
    (∀ rest, parseOptions (none :: rest) = .ok DefaultOption) ∧
    (∀ o, parseOptions [some o] = .ok { o with
        MagicNumber := MagicNumber,
        CodecType := if o.CodecType = "" then GobType else o.CodecType }) ∧
    (∀ o rest, rest ≠ [] → parseOptions (some o :: rest)
        = .error "number of options is more than 1") := by
  refine ⟨?_, rfl, fun rest => rfl, ?_, ?_⟩
  · intro opts o h
    match opts with
    | [] =>
        simp only [parseOptions] at h
        cases h
        rfl
    | none :: rest =>
        simp only [parseOptions] at h
        cases h
        rfl
    | some a :: rest =>
        simp only [parseOptions] at h
        by_cases hr : rest.length ≠ 0
        · rw [if_pos hr] at h
          exact absurd h (by simp)
        · rw [if_neg hr] at h
          by_cases hcdx : a.CodecType = ""
          · rw [if_pos hcdx] at h
            cases h
            rfl
          · rw [if_neg hcdx] at h
            cases h
            rfl
  · intro o
    by_cases hcdx : o.CodecType = "" <;>
      simp [parseOptions, hcdx, DefaultOption]
  · intro o rest hrest
    have hr : rest.length ≠ 0 := by
      intro h0
      exact hrest (List.length_eq_zero.mp h0)
    simp [parseOptions, hr]

/-- Witness for C9 amended: a caller-supplied wrong magic number and
empty codec type are normalized, and two non-nil options are refused. -/
theorem parseOptions_normalization_witness :
    parseOptions [some { MagicNumber := 999, CodecType := "" }]
      = .ok { MagicNumber := MagicNumber, CodecType := GobType } ∧
    parseOptions [some DefaultOption, some DefaultOption]
      = .error "number of options is more than 1" :=
  ⟨(parseOptions_normalization.2.2.2.1
      { MagicNumber := 999, CodecType := "" }).trans (by rfl),
   parseOptions_normalization.2.2.2.2 DefaultOption [some DefaultOption] (by decide)⟩

end GoRPC

namespace Service

theorem lastIndexOfDot_eq_none (l : List Char) (h : '.' ∉ l) :
    lastIndexOfDot l = none := by
  induction l with
  | nil => rfl
  | cons c rest ih =>
      have hc : ¬ (c = '.') := fun e => h (e ▸ List.mem_cons_self _ _)
      have hr : '.' ∉ rest := fun hx => h (List.mem_cons_of_mem _ hx)
      simp [lastIndexOfDot, ih hr, hc]

theorem lastIndexOfDot_append (la lb : List Char) (h : '.' ∉ lb) :
    lastIndexOfDot (la ++ '.' :: lb) = some la.length := by
  induction la with
  | nil => simp [lastIndexOfDot, lastIndexOfDot_eq_none lb h]
  | cons c rest ih => simp [lastIndexOfDot, ih]

/-- C5: findService splits the method name at the last dot.  A name
without a dot is refused as ill-formed; a name a.b whose method part b
is dot-free (so the split point is the dot shown) resolves by looking a
up in the service map and b up in that service's method table, giving a
not-found error when either lookup fails and the matching handle pair
otherwise. -/
theorem findService_resolution (srv : Server) (s a b : String) :
    ('.' ∉ s.data →
       srv.findService s
         = .error ("rpc server: service/method request ill-formed: " ++ s)) ∧
    ('.' ∉ b.data →
       srv.findService (a ++ "." ++ b) =
         match List.lookup a srv.serviceMap with
         | none => .error ("rpc server: can't find service" ++ a)
         | some svc =>
             match List.lookup b svc.method with
             | none => .error ("rpc server: can't find method " ++ b)
             | some mtype => .ok (svc, mtype)) := by
  constructor
  · intro hnd
    rw [Server.findService, lastIndexOfDot_eq_none _ hnd]
  · intro hnd
    have hdata : (a ++ "." ++ b).data = a.data ++ '.' :: b.data := by
      rw [String.data_append, String.data_append]
      simp
    rw [Server.findService, hdata, lastIndexOfDot_append _ _ hnd]
    have ht : (a.data ++ '.' :: b.data).take a.data.length = a.data :=
      List.take_left' rfl
    have hd2 : (a.data ++ '.' :: b.data).drop (a.data.length + 1) = b.data := by
      have hsplit : a.data ++ '.' :: b.data = (a.data ++ ['.']) ++ b.data := by simp
      rw [hsplit]
      exact List.drop_left' (by simp)
    dsimp only
    rw [ht, hd2]

/-- Witness for C5: an ill-formed name, and a resolved name on the
example server. -/
theorem findService_resolution_witness :
    exampleServer.findService "FooSum"
      = .error "rpc server: service/method request ill-formed: FooSum" ∧
    exampleServer.findService ("Foo" ++ "." ++ "Sum") = .ok (fooService, sumMethod) := by
  have h := findService_resolution exampleServer "FooSum" "Foo" "Sum"
  refine ⟨(h.1 (by decide)).trans (by rfl), ?_⟩
  rw [h.2 (by decide)]
  rfl

/-- C4: when a request header decodes but method resolution fails, or
the argument-body decode fails, the server records the failure text in
the header's error field, answers with the invalidRequest placeholder
body, and keeps serving the remaining messages of the connection
instead of closing it. -/
theorem error_response_and_continue (srv : Server) (h : Header)
    (body : Except String RVal) (rest : List InMsg) :
    (∀ e, srv.findService h.serviceMethod = .error e →
       srv.serveCodec (.msg h body :: rest) =
         ((({ h with error := e }, RespBody.invalid) :: (srv.serveCodec rest).1),
          (srv.serveCodec rest).2 + 1)) ∧
    (∀ svc mtype eb, srv.findService h.serviceMethod = .ok (svc, mtype) →
       (mtype.ReplyType.elem).isSome = true →
       body = .error eb →
       srv.serveCodec (.msg h body :: rest) =
         ((({ h with error := eb }, RespBody.invalid) :: (srv.serveCodec rest).1),
          (srv.serveCodec rest).2 + 1)) := by
  constructor
  · intro e hf
    simp only [Server.serveCodec, Server.readRequest, hf]
  · intro svc mtype eb hf hsome hb
    subst hb
    obtain ⟨er, her⟩ := Option.isSome_iff_exists.mp hsome
    simp only [Server.serveCodec, Server.readRequest, hf, methodType.newReplyv, her]

/-- Witness for C4: an unknown service on the example server, and a
body-decode failure on a resolved method. -/
theorem error_response_and_continue_witness :
    exampleServer.serveCodec [.msg demoHeader (.ok (.vInt 5))] =
      ([({ demoHeader with error := "rpc server: can't find serviceNope" },
          RespBody.invalid)], 1) ∧
    exampleServer.serveCodec
        [.msg { serviceMethod := "Foo.Sum", seq := 2, error := "" } (.error "gob: type mismatch")] =
      ([({ serviceMethod := "Foo.Sum", seq := 2, error := "gob: type mismatch" },
          RespBody.invalid)], 1) :=
  ⟨((error_response_and_continue exampleServer demoHeader (.ok (.vInt 5)) []).1
      "rpc server: can't find serviceNope" (by rfl)).trans (by rfl),
   ((error_response_and_continue exampleServer
        { serviceMethod := "Foo.Sum", seq := 2, error := "" }
        (.error "gob: type mismatch") []).2 fooService sumMethod
      "gob: type mismatch" (by rfl) (by rfl) rfl).trans (by rfl)⟩

/-- C6: a decoded Option with the wrong magic number, or with a codec
type that has no registered constructor, makes ServeConn return at once:
no request header read, no response written (the deferred conn.Close
then closes the connection). -/
theorem handshake_reject (srv : Server) (opt : OptionMsg) (msgs : List InMsg)
    (h : opt.MagicNumber ≠ MagicNumber ∨ NewCodecFuncMap opt.CodecType = none) :
    Server.ServeConn srv (some opt) msgs = ([], 0) := by
  simp only [Server.ServeConn]
  by_cases hm : opt.MagicNumber ≠ MagicNumber
  · rw [if_pos hm]
  · rw [if_neg hm]
    rcases h with h | h
    · exact absurd h hm
    · rw [h]

/-- Witness for C6: the json codec type is never registered, so even a
correct magic number is rejected before any request is read. -/
theorem handshake_reject_witness :
    Server.ServeConn exampleServer
      (some { MagicNumber := MagicNumber, CodecType := JsonType })
      [.msg demoHeader (.ok (.vInt 1))] = ([], 0) :=
  handshake_reject exampleServer
    { MagicNumber := MagicNumber, CodecType := JsonType }
    [.msg demoHeader (.ok (.vInt 1))] (Or.inr (by decide))

/-- C10: for a method handle with a pointer reply type, newReplyv
returns a pointer to a freshly allocated value of the element type, and
when that element type is a map or a slice the pointed-to value is a
made (non-nil) empty map or slice — never a nil map or nil slice. -/
theorem newReplyv_fresh_non_nil (m : methodType) (e : RType)
    (hm : m.ReplyType = .tPtr e) :
    ∃ v, m.newReplyv = some (.vPtr v) ∧
      v.isNilMap = false ∧ v.isNilSlice = false ∧
      (e.kind = .kMap → v = .vMapMk 0) ∧
      (e.kind = .kSlice → v = .vSliceMk 0) ∧
      (e.kind ≠ .kMap → e.kind ≠ .kSlice → v = zeroValue e) := by
  cases e <;>
    simp [methodType.newReplyv, hm, RType.elem, RType.kind, zeroValue,
      RVal.isNilMap, RVal.isNilSlice]

/-- Witness for C10 on a map-typed reply. -/
theorem newReplyv_fresh_non_nil_witness :
    ∃ v, ({ name := "List", ArgType := .tInt,
            ReplyType := .tPtr (.tMap .tString .tInt),
            impl := fun _ r => Except.ok r } : methodType).newReplyv
          = some (.vPtr v) ∧
      v.isNilMap = false ∧ v.isNilSlice = false ∧
      ((RType.tMap .tString .tInt).kind = .kMap → v = .vMapMk 0) ∧
      ((RType.tMap .tString .tInt).kind = .kSlice → v = .vSliceMk 0) ∧
      ((RType.tMap .tString .tInt).kind ≠ .kMap →
        (RType.tMap .tString .tInt).kind ≠ .kSlice → v = zeroValue (.tMap .tString .tInt)) :=
  newReplyv_fresh_non_nil _ (.tMap .tString .tInt) rfl

end Service
